import Mathlib

/-!
Shallow embedding of the relay runtime in `router.py` (single-file Python
repository).  Pure fragments of the source are translated into executable
Lean functions; stateful loops become explicit state-passing functions, and
time-dependent decisions (batch-latency flushes, heartbeat deadlines) become
Boolean oracles consulted through a deterministic tick counter, so every
theorem quantifies over all possible timings.  External libraries (the HTTP
client, the incremental UTF-8 decoder, `json.loads`, base64) are modelled at
their interface: response objects carry their status/headers/body and the
chunk sequence that `iter_content` would yield, a `doneDetect` parameter
stands for the `json.loads(line)`/`done:true` test, and frame payloads carry
raw bytes in place of their base64 encoding.
-/

/-- Overlay DM payloads emitted by the relay (the `event` discriminants of
`router.py`: `relay.pong`, `relay.info`, `relay.response`, `relay.redirect`,
`relay.response.begin` / `.lines` / `.chunk` / `.keepalive` / `.end`). -/
inductive DMsg where
  | pong
  | infoM
  | response (ok : Bool) (status : Nat) (jsonV : Option String)
      (bodyB64 : Option (List Nat)) (truncated : Bool) (error : Option String)
  | redirect (service : String) (node : String) (addr : Option String)
      (error : Option String)
  | beginM (status : Nat)
  | linesM (batch : List (Nat × List Char))
  | chunkM (seq : Nat) (bytes : List Nat)
  | keepalive
  | endM (ok : Bool) (bytes : Nat) (lastSeq : Nat) (lineCount : Option Nat)
      (doneSeen : Option Bool) (truncated : Option Bool) (error : Option String)
deriving DecidableEq, Repr

/-- `SEND_QUEUE_MAX = 2000` (router.py line 1281). -/
def SEND_QUEUE_MAX : Nat := 2000

/-- `BridgeManager.dm` (router.py lines 1331-1339): `put_nowait` on the bounded
send FIFO; on `queue.Full` (the queue already holds `SEND_QUEUE_MAX` entries)
drop the oldest entry with `get_nowait` and retry the put. -/
def bridgeDm {α : Type} (q : List α) (x : α) : List α :=
  if q.length < SEND_QUEUE_MAX then q ++ [x]
  else q.drop 1 ++ [x]

/-- Association-list lookup standing for Python `dict.get`. -/
def lookupA : List (String × String) → String → Option String
  | [], _ => none
  | (k, v) :: rest, s => if k = s then some v else lookupA rest s

/-- Association-list update standing for Python `dict[k] = v`. -/
def setA : List (String × String) → String → String → List (String × String)
  | [], k, v => [(k, v)]
  | (k', v') :: rest, k, v =>
      if k' = k then (k, v) :: rest else (k', v') :: setA rest k v

/-- `list.index` (used via `node_ids.index(current)` in `_cycle_service`). -/
def idxOf : List String → String → Nat
  | [], _ => 0
  | x :: rest, c => if x = c then 0 else idxOf rest c + 1

/-- Router state relevant to `_cycle_service`: the stable node order and the
`service_assignments` map. -/
structure RouterSt where
  nodeIds : List String
  assignments : List (String × String)
deriving DecidableEq, Repr

/-- `Router._cycle_service` (router.py lines 2185-2204).  `statusKnown` is the
key set of `latest_service_status`; the leading guard is
`if not service or service not in self.latest_service_status: return`. -/
def cycleService (statusKnown : List String) (st : RouterSt) (service : String) :
    RouterSt :=
  if service = "" ∨ service ∉ statusKnown then st
  else if st.nodeIds = [] then st
  else
    let n := st.nodeIds.length
    let current := lookupA st.assignments service
    let newId :=
      match current with
      | some c =>
          if c ∈ st.nodeIds then st.nodeIds.getD ((idxOf st.nodeIds c + 1) % n) ""
          else st.nodeIds.getD 0 ""
      | none => st.nodeIds.getD 0 ""
    if lookupA st.assignments service = some newId then st
    else { st with assignments := setA st.assignments service newId }

/-- Lowercase an ASCII letter; stands for Python `str.lower()` (the relay only
lowercases ASCII service hints and header tokens). -/
def charLower (c : Char) : Char :=
  if 65 ≤ c.toNat ∧ c.toNat ≤ 90 then Char.ofNat (c.toNat + 32) else c

/-- Python `str.lower()`. -/
def strLower (s : String) : String := String.mk (s.data.map charLower)

/-- The whitespace set of Python `str.strip()` / `str.isspace()` (ASCII part;
the relay strips service names and session ids, which are ASCII). -/
def isPyWS (c : Char) : Bool :=
  c = ' ' || c = '\t' || c = '\n' || c = '\r' || c = '\x0b' || c = '\x0c'

/-- Python `str.strip()` on the character list. -/
def pyStripL (l : List Char) : List Char :=
  ((l.dropWhile isPyWS).reverse.dropWhile isPyWS).reverse

/-- Python `str.strip()`. -/
def pyStrip (s : String) : String := String.mk (pyStripL s.data)

/-- Python `or` on two strings (the left operand wins unless it is falsy,
i.e. empty). -/
def pyOrS (a b : String) : String := if a = "" then b else a

/-- Python `x or default` on an optional string where `None` and `""` are both
falsy. -/
def pyOrOpt (a : Option String) (b : String) : String :=
  match a with
  | none => b
  | some s => if s = "" then b else s

/-- `list.startswith` at the character-list level. -/
def startsL : List Char → List Char → Bool
  | [], _ => true
  | _ :: _, [] => false
  | a :: as, b :: bs => a = b && startsL as bs

/-- Python `needle in hay` substring containment (character lists). -/
def subL (needle : List Char) : List Char → Bool
  | [] => needle.isEmpty
  | c :: rest => startsL needle (c :: rest) || subL needle rest

/-- Python `needle in hay` on strings. -/
def containsSub (hay needle : String) : Bool := subL needle.data hay.data

/-- A relay request descriptor (the `req` dict of `relay.http` DMs and the
dicts built by `req_from_asr_*`); only the fields the modelled code paths
read.  `""` stands for a missing/falsy field, matching the source's
`req.get(...) or ""` accesses.  `xRelayStream` is `headers.get("X-Relay-Stream")`. -/
structure Req where
  url : String
  service : String
  target : String
  path : String
  stream : String
  xRelayStream : String
deriving DecidableEq, Repr

/-- Incoming DM payloads dispatched by `RelayNode._handle_dm`
(router.py lines 1595-1660), reduced to the fields each arm reads. -/
inductive InMsg where
  | ping
  | infoReq
  | asrStart (optsService : String)
  | asrAudio (sid : String) (bodyB64 : String) (optsService : String)
  | asrEnd (sid : String) (optsService : String)
  | asrEvents (sid : String) (optsService : String)
  | httpReq (req : Req)
  | unknownEvt
deriving DecidableEq, Repr

/-- `req_from_asr_start` (router.py lines 1449-1460); never raises. -/
def reqFromAsrStart (optsService : String) : Req :=
  { url := "", service := pyStrip (pyOrS optsService "asr"),
    target := "", path := "/recognize/stream/start", stream := "",
    xRelayStream := "" }

/-- `req_from_asr_audio` (router.py lines 1463-1486): raises on a missing
session id or missing base64 body.  The Python error text
`ValueError: asr.audio missing sid` (etc.) is the `type(e).__name__: e`
rendering produced at the catch site. -/
def reqFromAsrAudio (sid bodyB64 optsService : String) : Except String Req :=
  let sidT := pyStrip sid
  if sidT = "" then .error "ValueError: asr.audio missing sid"
  else if bodyB64 = "" then .error "ValueError: asr.audio missing body_b64"
  else .ok { url := "", service := pyStrip (pyOrS optsService "asr"),
             target := "",
             path := "/recognize/stream/" ++ sidT ++ "/audio",
             stream := "", xRelayStream := "" }

/-- `req_from_asr_end` (router.py lines 1489-1503). -/
def reqFromAsrEnd (sid optsService : String) : Except String Req :=
  let sidT := pyStrip sid
  if sidT = "" then .error "ValueError: asr.end missing sid"
  else .ok { url := "", service := pyStrip (pyOrS optsService "asr"),
             target := "",
             path := "/recognize/stream/" ++ sidT ++ "/end",
             stream := "", xRelayStream := "" }

/-- `req_from_asr_events` (router.py lines 1506-1523): stream mode `chunks`
and an `X-Relay-Stream: chunks` header. -/
def reqFromAsrEvents (sid optsService : String) : Except String Req :=
  let sidT := pyStrip sid
  if sidT = "" then .error "ValueError: asr.events missing sid"
  else .ok { url := "", service := pyStrip (pyOrS optsService "asr"),
             target := "",
             path := "/recognize/stream/" ++ sidT ++ "/events",
             stream := "chunks", xRelayStream := "chunks" }

/-- The `alias_map` of `RelayNode.__init__` (router.py lines 1555-1562). -/
def aliasCanon (h : String) : String :=
  if h = "asr" ∨ h = "whisper" then "whisper_asr"
  else if h = "tts" ∨ h = "piper" then "piper_tts"
  else if h = "ollama" ∨ h = "llm" then "ollama_farm"
  else h

/-- `RelayNode._canonical_service` (router.py lines 1662-1666). -/
def canonicalService (hint : String) : Option String :=
  if hint = "" then none else some (aliasCanon (strLower hint))

/-- The terminal error DM built at the two catch sites
(router.py lines 1640-1650 and 1742-1752): `ok=False`, `status=0`, the
error string, and empty body fields. -/
def errDM (e : String) : DMsg :=
  DMsg.response false 0 none none false (some e)

/-- `RelayNode._check_assignment` (router.py lines 1668-1690).  `lookup` is
the router's `lookup_assignment` closure returning
`(assigned_node, current_addr)`.  Returns the DMs sent plus the admit flag;
`if not addr` in Python treats both `None` and `""` as missing. -/
def checkAssignment (selfId : String)
    (lookup : String → Option String × Option String)
    (service : Option String) : List DMsg × Bool :=
  match service with
  | none => ([], true)
  | some svc =>
      if svc = "" then ([], true)
      else
        let r := lookup svc
        match r.1 with
        | none => ([], true)
        | some nid =>
            if nid ≠ "" ∧ nid ≠ selfId then
              ([DMsg.redirect svc nid r.2
                  (if r.2 = none ∨ r.2 = some "" then
                     some "service currently offline" else none)], false)
            else ([], true)

/-- Gate-then-enqueue used by every request arm of `_handle_dm`:
`if self._check_assignment(svc, src, rid): self._enqueue_request(...)`. -/
def gateEnqueue (selfId : String)
    (lookup : String → Option String × Option String)
    (svc : Option String) (req : Req) : List DMsg × List Req :=
  let r := checkAssignment selfId lookup svc
  if r.2 then (r.1, [req]) else (r.1, [])

/-- `RelayNode._handle_dm` (router.py lines 1595-1660): returns the DMs sent
immediately plus the jobs placed on the worker queue.  Upstream HTTP happens
only in `_http_worker` (see `workerRun`), never here. -/
def handleDm (selfId : String)
    (lookup : String → Option String × Option String)
    (msg : InMsg) : List DMsg × List Req :=
  match msg with
  | .ping => ([DMsg.pong], [])
  | .infoReq => ([DMsg.infoM], [])
  | .asrStart svcOpt =>
      gateEnqueue selfId lookup (some "whisper_asr") (reqFromAsrStart svcOpt)
  | .asrAudio sid b64 svcOpt =>
      match reqFromAsrAudio sid b64 svcOpt with
      | .error e => ([errDM e], [])
      | .ok req => gateEnqueue selfId lookup (some "whisper_asr") req
  | .asrEnd sid svcOpt =>
      match reqFromAsrEnd sid svcOpt with
      | .error e => ([errDM e], [])
      | .ok req => gateEnqueue selfId lookup (some "whisper_asr") req
  | .asrEvents sid svcOpt =>
      match reqFromAsrEvents sid svcOpt with
      | .error e => ([errDM e], [])
      | .ok req => gateEnqueue selfId lookup (some "whisper_asr") req
  | .httpReq req =>
      gateEnqueue selfId lookup (canonicalService (pyOrS req.service req.target))
        req
  | .unknownEvt => ([], [])

/-- `str.rstrip("/")` used on the target base URL. -/
def rstripSlash (s : String) : String :=
  String.mk ((s.data.reverse.dropWhile (fun c => c = '/')).reverse)

/-- `RelayNode._resolve_url` (router.py lines 1705-1716): an absolute `url`
wins; otherwise the service is looked up in the targets map (unknown service
raises `ValueError`), and `path` is joined with a single separator. -/
def resolveUrl (targets : List (String × String)) (req : Req) :
    Except String String :=
  let url := pyStrip req.url
  if url ≠ "" then .ok url
  else
    let svc := pyStrip req.service
    match lookupA targets svc with
    | none => .error ("ValueError: unknown service " ++ svc)
    | some base =>
        let path0 := pyOrS req.path "/"
        let path := if startsL ['/'] path0.data then path0 else "/" ++ path0
        .ok (rstripSlash base ++ path)

/-- `http_cfg` retry defaults (router.py lines 1548-1550):
`retries = 4`, `retry_backoff = 0.5`, `retry_cap = 4.0`. -/
def RETRY_ATTEMPTS : Nat := 4

/-- Retry backoff floor, `0.5` seconds. -/
def RETRY_BACKOFF : ℚ := 1 / 2

/-- Retry backoff cap, `4.0` seconds. -/
def RETRY_CAP : ℚ := 4

/-- The sleep after failed attempt `i` (0-based):
`min(self.retry_backoff * (2 ** attempt), self.retry_cap)`
(router.py line 1725). -/
def retryDelay (i : Nat) : ℚ := min (RETRY_BACKOFF * 2 ^ i) RETRY_CAP

/-- An upstream HTTP response object (the parts of `requests.Response` the
relay reads).  `jsonVal` is `some s` when `resp.json()` parses (the parsed
value, serialised; the parser is external); `textChunks` is the
UTF-8-decoded chunk sequence `iter_content` yields in line mode and
`byteChunks` the raw one in chunk mode; `streamErr` is `some e` when
iterating the body raises after the listed chunks. -/
structure Resp where
  status : Nat
  contentType : String
  jsonVal : Option String
  body : List Nat
  textChunks : List (List Char)
  byteChunks : List (List Nat)
  streamErr : Option String
deriving Repr

/-- One trial of the retry loop of `RelayNode._http_request_with_retry`
(router.py lines 1718-1728): `attempts i` is the transport outcome of the
`i`-th `session.request` call.  Returns the result together with the list of
sleeps performed; a transport failure sleeps `retryDelay i` (also after the
final attempt, before the saved exception is re-raised), while any response
object returns immediately regardless of its status code. -/
def httpRetryAux (attempts : Nat → Except String Resp) :
    Nat → Nat → Except String Resp × List ℚ
  | _, 0 => (.error "RuntimeError: request failed", [])
  | i, n + 1 =>
      match attempts i with
      | .ok r => (.ok r, [])
      | .error e =>
          match n with
          | 0 => (.error e, [retryDelay i])
          | m + 1 =>
              let r := httpRetryAux attempts (i + 1) (m + 1)
              (r.1, retryDelay i :: r.2)

/-- `RelayNode._http_request_with_retry` with the default `retries = 4`. -/
def httpRetry (attempts : Nat → Except String Resp) :
    Except String Resp × List ℚ :=
  httpRetryAux attempts 0 RETRY_ATTEMPTS

/-- `stream_mode` as computed at router.py line 1773:
`str(req.get("stream") or headers.get("X-Relay-Stream") or "").strip().lower()`. -/
def streamToken (req : Req) : String :=
  strLower (pyStrip (pyOrS req.stream req.xRelayStream))

/-- The streaming trigger (router.py line 1774). -/
def wantStream (req : Req) : Bool :=
  streamToken req ∈
    ["1", "true", "yes", "on", "chunks", "dm", "lines", "ndjson", "sse",
     "events"]

/-- `RelayNode._infer_stream_mode` (router.py lines 1823-1833). -/
def inferStreamMode (mode : String) (resp : Resp) : String :=
  if mode = "lines" ∨ mode = "ndjson" ∨ mode = "line" then "lines"
  else if mode = "sse" ∨ mode = "events" then "lines"
  else
    let ctype := strLower resp.contentType
    if containsSub ctype "text/event-stream" ||
       containsSub ctype "application/x-ndjson" then "lines"
    else if containsSub ctype "json" && containsSub ctype "stream" then
      "lines"
    else "chunks"

/-- The non-streaming tail of `RelayNode._process_request`
(router.py lines 1793-1821): truncate the raw body to `max_body`, then build
the single terminal `relay.response`.  When the `Content-Type` contains
`application/json` and the external parse succeeds, the parsed value is
delivered and no base64 body; otherwise the (possibly truncated) raw body is
delivered (the `elif`/`else` arms at lines 1816-1819 are identical). -/
def processNonStream (maxBody : Nat) (resp : Resp) : DMsg :=
  let raw := resp.body
  let truncated := decide (raw.length > maxBody)
  let raw2 := if raw.length > maxBody then raw.take maxBody else raw
  if containsSub (strLower resp.contentType) "application/json" then
    match resp.jsonVal with
    | some j => DMsg.response true resp.status (some j) none truncated none
    | none => DMsg.response true resp.status none (some raw2) truncated none
  else DMsg.response true resp.status none (some raw2) truncated none

/-- Environment of `RelayNode._stream_lines`: `batch_lines` (default 24) plus
the time-dependent decisions as oracles over a tick counter (`latencyDue t`
is `time.time() - last_flush >= self.batch_latency` at the `t`-th consult,
`heartbeatDue t` is `time.time() >= hb_deadline`), and `doneDetect line`
standing for `json.loads(line)` yielding a dict with `done: True`. -/
structure LinesCfg where
  batchLines : Nat
  latencyDue : Nat → Bool
  heartbeatDue : Nat → Bool
  doneDetect : List Char → Bool

/-- Mutable state of `RelayNode._stream_lines` (router.py lines 1869-1878):
`text_buf`, the pending `batch`, the global `seq`, `total_lines`,
`total_bytes`, `done_seen`, plus the oracle tick. -/
structure LSt where
  buf : List Char
  batch : List (Nat × List Char)
  seq : Nat
  nlines : Nat
  nbytes : Nat
  dseen : Bool
  tick : Nat
deriving Repr

/-- Initial `_stream_lines` state. -/
def lstInit : LSt :=
  { buf := [], batch := [], seq := 0, nlines := 0, nbytes := 0,
    dseen := false, tick := 0 }

/-- `not line.strip()` — the blank-line test of router.py line 1904. -/
def lineBlank (l : List Char) : Bool := l.all isPyWS

/-- `flush_batch` (router.py lines 1880-1891): a no-op on an empty batch,
otherwise emit one `relay.response.lines` DM carrying the whole batch. -/
def flushBatch (st : LSt) : List DMsg × LSt :=
  if st.batch = [] then ([], st)
  else ([DMsg.linesM st.batch], { st with batch := [] })

/-- Per-line bookkeeping of router.py lines 1906-1916: bump `seq` and
`total_lines`, record `done_seen`, append to the batch, then flush when the
batch is full or (consulting the latency oracle) the batch latency elapsed. -/
def pushLine (cfg : LinesCfg) (st : LSt) (line : List Char) :
    List DMsg × LSt :=
  let seq' := st.seq + 1
  let st1 : LSt :=
    { st with seq := seq', nlines := st.nlines + 1,
              dseen := st.dseen || cfg.doneDetect line,
              batch := st.batch ++ [(seq', line)] }
  if st1.batch.length ≥ cfg.batchLines then flushBatch st1
  else if cfg.latencyDue st1.tick then
    let r := flushBatch st1
    (r.1, { r.2 with tick := r.2.tick + 1 })
  else ([], { st1 with tick := st1.tick + 1 })

/-- One character of the `text_buf` newline scan (router.py lines 1898-1916):
a newline terminates the buffered line, which is dropped when blank and
otherwise emitted through `pushLine`; any other character extends `text_buf`. -/
def feedChar (cfg : LinesCfg) (st : LSt) (c : Char) : List DMsg × LSt :=
  if c = '\n' then
    let line := st.buf
    let st0 := { st with buf := ([] : List Char) }
    if lineBlank line then ([], st0) else pushLine cfg st0 line
  else ([], { st with buf := st.buf ++ [c] })

/-- Scan a decoded text chunk character by character (equivalent to the
`text_buf.find("\n")` loop of router.py lines 1898-1905). -/
def feedChars (cfg : LinesCfg) (st : LSt) : List Char → List DMsg × LSt
  | [] => ([], st)
  | c :: cs =>
      let r1 := feedChar cfg st c
      let r2 := feedChars cfg r1.2 cs
      (r1.1 ++ r2.1, r2.2)

/-- One iteration of the `iter_content` loop in `_stream_lines`
(router.py lines 1894-1919): a non-empty chunk is counted and scanned, then
the heartbeat deadline is checked and a keepalive possibly emitted. -/
def feedChunk (cfg : LinesCfg) (st : LSt) (chunk : List Char) :
    List DMsg × LSt :=
  let r1 :=
    if chunk = [] then (([] : List DMsg), st)
    else feedChars cfg { st with nbytes := st.nbytes + chunk.length } chunk
  if cfg.heartbeatDue r1.2.tick then
    (r1.1 ++ [DMsg.keepalive], { r1.2 with tick := r1.2.tick + 1 })
  else (r1.1, { r1.2 with tick := r1.2.tick + 1 })

/-- The whole `iter_content` loop of `_stream_lines`. -/
def feedAll (cfg : LinesCfg) (st : LSt) : List (List Char) → List DMsg × LSt
  | [] => ([], st)
  | ch :: rest =>
      let r1 := feedChunk cfg st ch
      let r2 := feedAll cfg r1.2 rest
      (r1.1 ++ r2.1, r2.2)

/-- `RelayNode._stream_lines` (router.py lines 1869-1948) on a body whose
iteration yields `chunks` and then either EOF (`err = none`) or raises
(`err = some e`, the rendered exception).  On EOF the source flushes only the
incremental decoder's tail — empty here, since the decoder buffers only
incomplete byte sequences and the decoded text sits in `text_buf`, which the
source never flushes — and the pending batch, then emits the `ok=True` end;
an exception emits the `ok=False` end with the counters as they stand (the
pending batch is abandoned).  The line-mode end DM carries `lines` and
`done_seen` but no `truncated` field. -/
def streamLinesRun (cfg : LinesCfg) (chunks : List (List Char))
    (err : Option String) : List DMsg :=
  let r := feedAll cfg lstInit chunks
  match err with
  | some e =>
      r.1 ++ [DMsg.endM false r.2.nbytes r.2.seq (some r.2.nlines)
                (some r.2.dseen) none (some e)]
  | none =>
      let r2 := flushBatch r.2
      r.1 ++ r2.1 ++ [DMsg.endM true r2.2.nbytes r2.2.seq (some r2.2.nlines)
                        (some r2.2.dseen) none none]

/-- Mutable state of `RelayNode._stream_chunks` (router.py lines 1950-1953). -/
structure CSt where
  seq : Nat
  total : Nat
  tick : Nat
deriving DecidableEq, Repr

/-- One iteration of the `iter_content` loop in `_stream_chunks`
(router.py lines 1955-1970): an empty read may emit a keepalive (heartbeat
oracle), a non-empty read emits one `relay.response.chunk` with the next
sequence number. -/
def chunkStep (hb : Nat → Bool) (st : CSt) (chunk : List Nat) :
    List DMsg × CSt :=
  if chunk = [] then
    if hb st.tick then ([DMsg.keepalive], { st with tick := st.tick + 1 })
    else ([], { st with tick := st.tick + 1 })
  else
    ([DMsg.chunkM (st.seq + 1) chunk],
     { st with seq := st.seq + 1, total := st.total + chunk.length })

/-- The whole `iter_content` loop of `_stream_chunks`. -/
def chunkFold (hb : Nat → Bool) (st : CSt) :
    List (List Nat) → List DMsg × CSt
  | [] => ([], st)
  | ch :: rest =>
      let r1 := chunkStep hb st ch
      let r2 := chunkFold hb r1.2 rest
      (r1.1 ++ r2.1, r2.2)

/-- `RelayNode._stream_chunks` (router.py lines 1950-1992).  Both end DMs
carry `truncated: False`; the success end carries `error: None`. -/
def streamChunksRun (hb : Nat → Bool) (chunks : List (List Nat))
    (err : Option String) : List DMsg :=
  let r := chunkFold hb { seq := 0, total := 0, tick := 0 } chunks
  match err with
  | some e =>
      r.1 ++ [DMsg.endM false r.2.total r.2.seq none none (some false)
                (some e)]
  | none =>
      r.1 ++ [DMsg.endM true r.2.total r.2.seq none none (some false) none]

/-- `RelayNode._handle_stream` in line mode (router.py lines 1835-1867):
exactly one `relay.response.begin` before the mode-specific frames. -/
def handleStreamLines (cfg : LinesCfg) (status : Nat)
    (chunks : List (List Char)) (err : Option String) : List DMsg :=
  DMsg.beginM status :: streamLinesRun cfg chunks err

/-- `RelayNode._handle_stream` in chunk mode (router.py lines 1835-1867). -/
def handleStreamChunks (hb : Nat → Bool) (status : Nat)
    (chunks : List (List Nat)) (err : Option String) : List DMsg :=
  DMsg.beginM status :: streamChunksRun hb chunks err

/-- `RelayNode._http_worker` processing one job through
`RelayNode._process_request` (router.py lines 1730-1821): resolve the URL
(a `ValueError` is caught by the worker and turned into the terminal error
DM), run the transport with retries (a final transport failure likewise),
then either stream or send the single terminal response. -/
def workerRun (maxBody : Nat) (cfg : LinesCfg) (hb : Nat → Bool)
    (targets : List (String × String)) (attempts : Nat → Except String Resp)
    (req : Req) : List DMsg :=
  match resolveUrl targets req with
  | .error e => [errDM e]
  | .ok _ =>
      match (httpRetry attempts).1 with
      | .error e => [errDM e]
      | .ok resp =>
          if wantStream req then
            if inferStreamMode (streamToken req) resp = "lines" then
              handleStreamLines cfg resp.status resp.textChunks resp.streamErr
            else
              handleStreamChunks hb resp.status resp.byteChunks resp.streamErr
          else [processNonStream maxBody resp]

/-- Python `x or default` on `state.last_error` (an `Optional[str]`): `None`
and `""` are falsy. -/
def pyOrErr (o : Option String) (d : String) : Option String :=
  match o with
  | none => some d
  | some s => if s = "" then some d else some s

/-- Outcome of one `_manage_standard_service` call
(router.py lines 507-524): `ok` is a `True` return (stop requested while the
child ran), `fail e` a `False` return after `last_error` was set to `e`
(`"spawn failed"` or `"Exited with code N"`), `exc e` a raised exception
rendered as `e`. -/
inductive SvcOutcome where
  | ok
  | fail (e : String)
  | exc (e : String)
deriving DecidableEq, Repr

/-- Watchdog supervisor state for one standard service, restricted to the
fields `_run_service_loop` mutates. -/
structure WDState where
  lastError : Option String
  restartCount : Nat
  restartAttempts : Nat
  processLive : Bool
deriving DecidableEq, Repr

/-- State at the top of `_run_service_loop` (router.py lines 405-407). -/
def wdInit : WDState :=
  { lastError := none, restartCount := 0, restartAttempts := 0,
    processLive := false }

/-- One iteration of `ServiceWatchdog._run_service_loop` for a standard
(non-`ollama_farm`) service (router.py lines 408-443).  Returns the new
state and whether the loop `break`s (parks the service).  On attempt 1 the
ports are freed and the loop retries immediately; on attempts ≤ 2 it sleeps
and retries; above 2 it keeps the already-recorded error
(`last_error or "Repeated startup failures"`), drops the child handle and
breaks. -/
def wdStep (st : WDState) (o : SvcOutcome) : WDState × Bool :=
  match o with
  | .ok => ({ st with restartAttempts := 0 }, false)
  | .exc e =>
      ({ st with lastError := some e, processLive := false,
                 restartCount := st.restartCount + 1,
                 restartAttempts := st.restartAttempts + 1 }, false)
  | .fail e =>
      let st1 : WDState :=
        { st with lastError := some e, processLive := false,
                  restartCount := st.restartCount + 1,
                  restartAttempts := st.restartAttempts + 1 }
      if st1.restartAttempts = 1 then (st1, false)
      else if st1.restartAttempts ≤ 2 then (st1, false)
      else ({ st1 with
                lastError := pyOrErr st1.lastError "Repeated startup failures",
                processLive := false }, true)

/-- `ServiceWatchdog._run_service_loop` on a finite trace of
`_manage_standard_service` outcomes; the Boolean reports whether the loop
ended by `break` (the service is parked for the rest of the process — the
supervisor thread runs this loop once and nothing respawns it).  Exhausting
the trace models the global stop. -/
def runServiceLoop (st : WDState) : List SvcOutcome → WDState × Bool
  | [] => (st, false)
  | o :: os =>
      let r := wdStep st o
      if r.2 then (r.1, true) else runServiceLoop r.1 os

/-- Spec-side: the `\n`-terminated segments of a character stream, given the
text already buffered (`cur`).  `segsAcc [] s` lists the newline-terminated
lines of `s` in order. -/
def segsAcc (cur : List Char) : List Char → List (List Char)
  | [] => []
  | c :: cs => if c = '\n' then cur :: segsAcc [] cs else segsAcc (cur ++ [c]) cs

/-- Spec-side: the unterminated remainder after scanning a character stream. -/
def restAcc (cur : List Char) : List Char → List Char
  | [] => cur
  | c :: cs => if c = '\n' then restAcc [] cs else restAcc (cur ++ [c]) cs

/-- Modelled from the spec claim wording for C3: all newline-separated
segments of the body, the final (unterminated) one included — what
`body.split("\n")` would yield. -/
def specAllSegs (s : List Char) : List (List Char) :=
  segsAcc [] s ++ [restAcc [] s]

/-- Modelled from the spec claim wording for C3: the non-blank
newline-separated segments of the decoded body, in order. -/
def specNonBlankSegs (s : List Char) : List (List Char) :=
  (specAllSegs s).filter (fun l => !lineBlank l)

/-- Number the lines `n+1, n+2, …` the way the stream machine assigns `seq`. -/
def tagFrom (n : Nat) : List (List Char) → List (Nat × List Char)
  | [] => []
  | l :: ls => (n + 1, l) :: tagFrom (n + 1) ls

/-- The `(seq, line)` entries a DM contributes. -/
def frameEntries : DMsg → List (Nat × List Char)
  | DMsg.linesM b => b
  | _ => []

/-- All `(seq, line)` entries of a DM sequence, in emission order. -/
def entriesOf : List DMsg → List (Nat × List Char)
  | [] => []
  | m :: rest => frameEntries m ++ entriesOf rest

/-- The `seq` values a DM contributes (line batches and chunk frames). -/
def frameSeqs : DMsg → List Nat
  | DMsg.linesM b => b.map Prod.fst
  | DMsg.chunkM s _ => [s]
  | _ => []

/-- All frame `seq` values of a DM sequence, in emission order. -/
def seqsOf : List DMsg → List Nat
  | [] => []
  | m :: rest => frameSeqs m ++ seqsOf rest

/-- DMs allowed strictly between `begin` and `end`: frames and keepalives. -/
def midFrame : DMsg → Bool
  | DMsg.linesM _ => true
  | DMsg.chunkM _ _ => true
  | DMsg.keepalive => true
  | _ => false

/-- Is this DM a `relay.response.end`? -/
def isEndM : DMsg → Bool
  | DMsg.endM .. => true
  | _ => false

/-- Is this DM a `relay.redirect`? -/
def isRedirectM : DMsg → Bool
  | DMsg.redirect .. => true
  | _ => false

/-- The `relay.redirect` payload `_check_assignment` builds
(router.py lines 1677-1686): the assigned node and its current address, with
the error string added exactly when the address is falsy (`if not addr`). -/
def redirectDM (svc nid : String) (addr : Option String) : DMsg :=
  DMsg.redirect svc nid addr
    (if addr = none ∨ addr = some "" then
       some "service currently offline" else none)

/-- The `ok` flag of an end DM. -/
def endOkOf : DMsg → Option Bool
  | DMsg.endM ok .. => some ok
  | _ => none

/-- The `truncated` field of an end DM (`none` when the payload has no such
key). -/
def endTruncOf : DMsg → Option (Option Bool)
  | DMsg.endM _ _ _ _ _ t _ => some t
  | _ => none

/-- The `ok` flag of a terminal `relay.response`. -/
def respOkOf : DMsg → Option Bool
  | DMsg.response ok .. => some ok
  | _ => none

/-- The `status` of a terminal `relay.response`. -/
def respStatusOf : DMsg → Option Nat
  | DMsg.response _ st .. => some st
  | _ => none

/-- The `body_b64` payload (decoded) of a terminal `relay.response`. -/
def respBodyOf : DMsg → Option (Option (List Nat))
  | DMsg.response _ _ _ b .. => some b
  | _ => none

/-- The `truncated` flag of a terminal `relay.response`. -/
def respTruncOf : DMsg → Option Bool
  | DMsg.response _ _ _ _ t _ => some t
  | _ => none

/-- The emitted `line` fields of a DM sequence, in `seq` (= emission) order. -/
def lineFieldsOf (l : List DMsg) : List (List Char) :=
  (entriesOf l).map Prod.snd

/-- DMs a line-mode stream body can emit: line batches and keepalives. -/
def linesKeep : DMsg → Bool
  | DMsg.linesM _ => true
  | DMsg.keepalive => true
  | _ => false

/-- Concrete fixture: the oracle environment in which no latency flush and no
heartbeat ever fires and no line parses as a `done` marker, with the default
`batch_lines = 24`. -/
def cfg0 : LinesCfg :=
  { batchLines := 24, latencyDue := fun _ => false,
    heartbeatDue := fun _ => false, doneDetect := fun _ => false }

/-- Concrete fixture: `DEFAULT_TARGETS` (router.py lines 92-96). -/
def targets0 : List (String × String) :=
  [("ollama", "http://127.0.0.1:11434"),
   ("asr", "http://127.0.0.1:8126"),
   ("tts", "http://127.0.0.1:8123")]

/-- Concrete fixture: a request naming a service absent from the targets map
and from the assignment map. -/
def reqNope : Req :=
  { url := "", service := "nope", target := "", path := "/x", stream := "",
    xRelayStream := "" }

theorem entriesOf_append (a b : List DMsg) :
    entriesOf (a ++ b) = entriesOf a ++ entriesOf b := by
  induction a with
  | nil => simp [entriesOf]
  | cons m rest ih => simp [entriesOf, ih]

theorem seqsOf_append (a b : List DMsg) :
    seqsOf (a ++ b) = seqsOf a ++ seqsOf b := by
  induction a with
  | nil => simp [seqsOf]
  | cons m rest ih => simp [seqsOf, ih]

theorem tagFrom_map_fst (ls : List (List Char)) :
    ∀ n, (tagFrom n ls).map Prod.fst = List.range' (n + 1) ls.length := by
  induction ls with
  | nil => intro n; simp [tagFrom]
  | cons l rest ih =>
      intro n
      simp [tagFrom, List.range'_succ, ih]

theorem tagFrom_map_snd (ls : List (List Char)) :
    ∀ n, (tagFrom n ls).map Prod.snd = ls := by
  induction ls with
  | nil => intro n; simp [tagFrom]
  | cons l rest ih => intro n; simp [tagFrom, ih]

theorem tagFrom_append (a b : List (List Char)) :
    ∀ n, tagFrom n (a ++ b) = tagFrom n a ++ tagFrom (n + a.length) b := by
  induction a with
  | nil => intro n; simp [tagFrom]
  | cons l rest ih =>
      intro n
      simp only [List.cons_append, tagFrom, ih, List.length_cons]
      have harith : n + 1 + rest.length = n + (rest.length + 1) := by omega
      rw [show rest.append b = rest ++ b from rfl, ih, harith]

theorem tagFrom_length (ls : List (List Char)) :
    ∀ n, (tagFrom n ls).length = ls.length := by
  induction ls with
  | nil => intro n; simp [tagFrom]
  | cons l rest ih => intro n; simp [tagFrom, ih]

theorem segsAcc_append (a b : List Char) :
    ∀ cur, segsAcc cur (a ++ b) = segsAcc cur a ++ segsAcc (restAcc cur a) b := by
  induction a with
  | nil => intro cur; simp [segsAcc, restAcc]
  | cons c rest ih =>
      intro cur
      by_cases hc : c = '\n' <;> simp [segsAcc, restAcc, hc, ih]

theorem restAcc_append (a b : List Char) :
    ∀ cur, restAcc cur (a ++ b) = restAcc (restAcc cur a) b := by
  induction a with
  | nil => intro cur; simp [restAcc]
  | cons c rest ih =>
      intro cur
      by_cases hc : c = '\n' <;> simp [restAcc, hc, ih]

/-- C8: enqueueing on a send FIFO already holding `SEND_QUEUE_MAX = 2000`
entries discards exactly the oldest entry and admits the new one at the
tail; on a FIFO holding fewer entries, every existing entry is kept and the
new one is appended, preserving FIFO order. -/
theorem bridgeDm_fifo {α : Type} (q : List α) (x : α) :
    (q.length = SEND_QUEUE_MAX → bridgeDm q x = q.tail ++ [x]) ∧
    (q.length < SEND_QUEUE_MAX → bridgeDm q x = q ++ [x]) := by
  constructor
  · intro h
    simp [bridgeDm, h, List.drop_one]
  · intro h
    simp [bridgeDm, h]

set_option maxRecDepth 4000 in
theorem bridgeDm_fifo_witness :
    bridgeDm (List.replicate 2000 (0 : Nat)) 1 =
      (List.replicate 2000 (0 : Nat)).tail ++ [1] :=
  (bridgeDm_fifo (List.replicate 2000 (0 : Nat)) 1).1 (by
    rw [List.length_replicate, SEND_QUEUE_MAX])

set_option maxRecDepth 4000 in
/-- C7 counterexample: a standard service that fails three times in a row
with `Exited with code 1` is parked by `_run_service_loop`, but the recorded
last error is the pre-existing `Exited with code 1`, not
`Repeated startup failures` (the source computes
`state.last_error or "Repeated startup failures"`, and
`_manage_standard_service` always sets a non-empty `last_error` before
returning `False`). -/
theorem runServiceLoop_keeps_exit_error :
    runServiceLoop wdInit
        [SvcOutcome.fail "Exited with code 1",
         SvcOutcome.fail "Exited with code 1",
         SvcOutcome.fail "Exited with code 1"] =
      ({ lastError := some "Exited with code 1", restartCount := 3,
         restartAttempts := 3, processLive := false }, true) ∧
    (some "Exited with code 1" : Option String) ≠
      some "Repeated startup failures" := by
  exact ⟨rfl, by decide⟩

/-- C7 (amended): when `_manage_standard_service` returns `False` and the
incremented restart-attempt counter for the current consecutive failure
streak exceeds 2, the supervisor loop keeps the failure reason that call
already recorded as the last error (falling back to
`Repeated startup failures` only when that reason is empty), clears the
child handle, and breaks out of the loop, consuming no further outcomes —
the service is never restarted again within the process lifetime.  (An
exception from `_manage_standard_service` only sleeps and retries, so the
loop parks exactly on a third consecutive `False` return.) -/
theorem wdStep_parks_on_third_failure (st : WDState) (o : SvcOutcome)
    (h : (wdStep st o).2 = true) :
    (∃ e, o = SvcOutcome.fail e ∧
        (wdStep st o).1.lastError = pyOrErr (some e) "Repeated startup failures" ∧
        (wdStep st o).1.processLive = false ∧
        (wdStep st o).1.restartAttempts = st.restartAttempts + 1 ∧
        2 < (wdStep st o).1.restartAttempts) ∧
    (∀ os : List SvcOutcome, runServiceLoop st (o :: os) = ((wdStep st o).1, true)) ∧
    (∀ e', 2 < st.restartAttempts + 1 →
        (wdStep st (SvcOutcome.fail e')).2 = true) := by
  refine ⟨?_, ?_, ?_⟩
  · cases o with
    | ok => simp [wdStep] at h
    | exc e => simp [wdStep] at h
    | fail e =>
        refine ⟨e, rfl, ?_⟩
        simp only [wdStep] at h ⊢
        split at h
        · simp at h
        · split at h
          · simp at h
          · rename_i h1 h2
            rw [if_neg h1, if_neg h2]
            exact ⟨rfl, rfl, rfl, by show 2 < st.restartAttempts + 1; omega⟩
  · intro os
    simp [runServiceLoop, h]
  · intro e' hgt
    simp only [wdStep]
    rw [if_neg (by omega : ¬(st.restartAttempts + 1 = 1)),
      if_neg (by omega : ¬(st.restartAttempts + 1 ≤ 2))]

theorem wdStep_parks_on_third_failure_witness :
    runServiceLoop
        { lastError := some "Exited with code 1", restartCount := 2,
          restartAttempts := 2, processLive := false }
        [SvcOutcome.fail "Exited with code 1"] =
      ((wdStep
          { lastError := some "Exited with code 1", restartCount := 2,
            restartAttempts := 2, processLive := false }
          (SvcOutcome.fail "Exited with code 1")).1, true) :=
  (wdStep_parks_on_third_failure
      { lastError := some "Exited with code 1", restartCount := 2,
        restartAttempts := 2, processLive := false }
      (SvcOutcome.fail "Exited with code 1") (by decide)).2.1 []

/-- C4: `_http_request_with_retry` with the default tuning performs up to 4
attempts; the sleep after failed attempt `i` (hence between attempts `i` and
`i+1`) is `min(0.5 · 2^i, 4.0)` seconds, concretely `0.5, 1, 2, 4`; when all
4 attempts fail with transport errors the final error is the result and
`_http_worker` surfaces it as the terminal error DM; a response carrying any
HTTP status code is returned right after the attempt that produced it and is
never retried. -/
theorem httpRetry_policy (attempts : Nat → Except String Resp) :
    ([retryDelay 0, retryDelay 1, retryDelay 2, retryDelay 3] =
        [1/2, 1, 2, 4]) ∧
    ((∀ i, i < 4 → ∃ e, attempts i = .error e) →
        httpRetry attempts = (attempts 3, [1/2, 1, 2, 4])) ∧
    (∀ k r, k < 4 → (∀ j, j < k → ∃ e, attempts j = .error e) →
        attempts k = .ok r →
        httpRetry attempts = (.ok r, (List.range k).map retryDelay)) ∧
    (∀ maxBody cfg hb targets req url e,
        resolveUrl targets req = .ok url →
        (httpRetry attempts).1 = .error e →
        workerRun maxBody cfg hb targets attempts req = [errDM e]) := by
  have hd0 : retryDelay 0 = 1/2 := by
    unfold retryDelay RETRY_BACKOFF RETRY_CAP
    rw [min_eq_left (by norm_num)]
    norm_num
  have hd1 : retryDelay 1 = 1 := by
    unfold retryDelay RETRY_BACKOFF RETRY_CAP
    rw [min_eq_left (by norm_num)]
    norm_num
  have hd2 : retryDelay 2 = 2 := by
    unfold retryDelay RETRY_BACKOFF RETRY_CAP
    rw [min_eq_left (by norm_num)]
    norm_num
  have hd3 : retryDelay 3 = 4 := by
    unfold retryDelay RETRY_BACKOFF RETRY_CAP
    rw [min_eq_left (by norm_num)]
    norm_num
  refine ⟨by rw [hd0, hd1, hd2, hd3], ?_, ?_, ?_⟩
  · intro h
    obtain ⟨e0, h0⟩ := h 0 (by omega)
    obtain ⟨e1, h1⟩ := h 1 (by omega)
    obtain ⟨e2, h2⟩ := h 2 (by omega)
    obtain ⟨e3, h3⟩ := h 3 (by omega)
    simp [httpRetry, RETRY_ATTEMPTS, httpRetryAux, h0, h1, h2, h3,
      hd0, hd1, hd2, hd3]
  · intro k r hk hprev hsucc
    interval_cases k
    · simp [httpRetry, RETRY_ATTEMPTS, httpRetryAux, hsucc]
    · obtain ⟨e0, h0⟩ := hprev 0 (by omega)
      simp [httpRetry, RETRY_ATTEMPTS, httpRetryAux, h0, hsucc, hd0,
        List.range_succ]
    · obtain ⟨e0, h0⟩ := hprev 0 (by omega)
      obtain ⟨e1, h1⟩ := hprev 1 (by omega)
      simp [httpRetry, RETRY_ATTEMPTS, httpRetryAux, h0, h1, hsucc, hd0, hd1,
        List.range_succ]
    · obtain ⟨e0, h0⟩ := hprev 0 (by omega)
      obtain ⟨e1, h1⟩ := hprev 1 (by omega)
      obtain ⟨e2, h2⟩ := hprev 2 (by omega)
      simp [httpRetry, RETRY_ATTEMPTS, httpRetryAux, h0, h1, h2, hsucc,
        hd0, hd1, hd2, List.range_succ]
  · intro maxBody cfg hb targets req url e hres herr
    simp [workerRun, hres, herr]

theorem httpRetry_policy_witness :
    httpRetry (fun _ => Except.error "boom") =
      (Except.error "boom", [1/2, 1, 2, 4]) :=
  (httpRetry_policy (fun _ => Except.error "boom")).2.1
    (fun _ _ => ⟨"boom", rfl⟩)

theorem strLower_ne_empty {s : String} (h : s ≠ "") : strLower s ≠ "" := by
  intro hc
  apply h
  have hd : (strLower s).data = s.data.map charLower := rfl
  rw [hc] at hd
  cases s with
  | mk l =>
      cases l with
      | nil => rfl
      | cons c cs => simp at hd

theorem aliasCanon_ne_empty {s : String} (h : s ≠ "") : aliasCanon s ≠ "" := by
  unfold aliasCanon
  split
  · intro hc; exact absurd hc (by decide)
  · split
    · intro hc; exact absurd hc (by decide)
    · split
      · intro hc; exact absurd hc (by decide)
      · exact h

/-- C2 counterexample: an `asr.audio` DM with a missing session id targets
`whisper_asr`, and with `whisper_asr` assigned to `relay-B`, the receiving
node `relay-A` does not reply with a `relay.redirect`: the translation
raises before the assignment gate runs (router.py lines 1624-1627), so the
reply is the single terminal `relay.response` error DM — refuting the claim
for this incoming DM (the job is still not enqueued). -/
theorem handleDm_asrError_no_redirect :
    handleDm "relay-A"
        (fun s => if s = "whisper_asr" then
            ((some "relay-B" : Option String), (none : Option String))
          else (none, none))
        (InMsg.asrAudio "" "zz" "") =
      ([errDM "ValueError: asr.audio missing sid"], []) ∧
    isRedirectM (errDM "ValueError: asr.audio missing sid") = false := by
  exact ⟨rfl, rfl⟩

/-- C2 (amended): for every incoming DM that translates successfully to a
request targeting a service whose assignment lookup names a different
(non-empty) node — every `asr.start`, every well-formed `asr.audio` /
`asr.end` / `asr.events` (all gated on `whisper_asr`), and every
`relay.http`-family DM whose canonical service hint resolves to such a
service — the node replies with a single `relay.redirect` DM carrying the
assigned node and its current address, together with the error string
`service currently offline` exactly when that address is missing, and no
job reaches the queue (so no upstream HTTP call is made: HTTP happens only
in `_http_worker`, which consumes the queue).  A DM whose ASR translation
raises is answered with the terminal `relay.response` error DM instead,
before the gate, also without enqueue. -/
theorem handleDm_redirect (selfId : String)
    (lookup : String → Option String × Option String)
    (req : Req) (sid b64 svcOpt nid : String) (addr : Option String)
    (hl : lookup "whisper_asr" = (some nid, addr))
    (hnid : nid ≠ "") (hne : nid ≠ selfId) :
    (handleDm selfId lookup (InMsg.asrStart svcOpt) =
        ([redirectDM "whisper_asr" nid addr], [])) ∧
    (pyStrip sid ≠ "" → b64 ≠ "" →
        handleDm selfId lookup (InMsg.asrAudio sid b64 svcOpt) =
          ([redirectDM "whisper_asr" nid addr], [])) ∧
    (pyStrip sid ≠ "" →
        handleDm selfId lookup (InMsg.asrEnd sid svcOpt) =
          ([redirectDM "whisper_asr" nid addr], []) ∧
        handleDm selfId lookup (InMsg.asrEvents sid svcOpt) =
          ([redirectDM "whisper_asr" nid addr], [])) ∧
    (∀ svc nid2 : String, ∀ addr2 : Option String,
        canonicalService (pyOrS req.service req.target) = some svc →
        lookup svc = (some nid2, addr2) → nid2 ≠ "" → nid2 ≠ selfId →
        handleDm selfId lookup (InMsg.httpReq req) =
          ([redirectDM svc nid2 addr2], [])) := by
  have hgate : gateEnqueue selfId lookup (some "whisper_asr") =
      fun _ => ([redirectDM "whisper_asr" nid addr], []) := by
    funext r
    simp only [gateEnqueue, checkAssignment, hl]
    rw [if_neg (show ¬("whisper_asr" = "") by decide)]
    simp only [if_pos (And.intro hnid hne)]
    rfl
  refine ⟨?_, ?_, ?_, ?_⟩
  · simp only [handleDm, hgate]
  · intro hsid hb
    simp only [handleDm, reqFromAsrAudio, if_neg hsid, if_neg hb, hgate]
  · intro hsid
    constructor
    · simp only [handleDm, reqFromAsrEnd, if_neg hsid, hgate]
    · simp only [handleDm, reqFromAsrEvents, if_neg hsid, hgate]
  · intro svc nid2 addr2 hsvc hl2 hnid2 hne2
    have hsvcne : svc ≠ "" := by
      unfold canonicalService at hsvc
      split at hsvc
      · cases hsvc
      · rename_i hhint
        have := aliasCanon_ne_empty (strLower_ne_empty hhint)
        intro hc
        apply this
        injection hsvc with hv
        rw [← hv] at hc
        exact hc
    simp only [handleDm, gateEnqueue, checkAssignment, hsvc, hl2]
    rw [if_neg hsvcne]
    simp only [if_pos (And.intro hnid2 hne2)]
    rfl

theorem handleDm_redirect_witness :
    handleDm "relay-A"
        (fun s => if s = "whisper_asr" then
            ((some "relay-B" : Option String), (none : Option String))
          else (none, none))
        (InMsg.asrStart "") =
      ([DMsg.redirect "whisper_asr" "relay-B" none
          (some "service currently offline")], []) ∧
    handleDm "relay-A"
        (fun s => if s = "whisper_asr" then
            ((some "relay-B" : Option String), (none : Option String))
          else (none, none))
        (InMsg.httpReq
          { url := "", service := "asr", target := "", path := "/health",
            stream := "", xRelayStream := "" }) =
      ([DMsg.redirect "whisper_asr" "relay-B" none
          (some "service currently offline")], []) := by
  have h := handleDm_redirect "relay-A"
    (fun s => if s = "whisper_asr" then
        ((some "relay-B" : Option String), (none : Option String))
      else (none, none))
    { url := "", service := "asr", target := "", path := "/health",
      stream := "", xRelayStream := "" }
    "x" "y" "" "relay-B" none rfl (by decide) (by decide)
  exact ⟨h.1, h.2.2.2 "whisper_asr" "relay-B" none (by decide) rfl
    (by decide) (by decide)⟩

/-- C6 counterexample: a `relay.http` DM naming the unknown service `nope`
(absent from the targets map and the assignment map) is enqueued by
`_handle_dm` with no immediate DM; the `unknown service` validation error of
`_resolve_url` is only raised later, inside the worker, after the job was
placed on the queue — contradicting the claim that no job is enqueued. -/
theorem handleDm_unknownService_enqueues :
    (handleDm "relay-A" (fun _ => (none, none)) (InMsg.httpReq reqNope)).1 =
        [] ∧
    (handleDm "relay-A" (fun _ => (none, none)) (InMsg.httpReq reqNope)).2 =
        [reqNope] ∧
    resolveUrl targets0 reqNope =
      Except.error "ValueError: unknown service nope" := by
  refine ⟨?_, ?_, ?_⟩ <;> rfl

/-- C6 (amended): the ASR translation errors (missing session id, missing
base64 body) are caught in `_handle_dm`, which immediately sends a single
terminal `relay.response` with `ok=false`, `status=0` and the error string,
and enqueues nothing; an unknown service, by contrast, is not a dispatch
error: the job is enqueued and the `unknown service` `ValueError` is raised
by `_resolve_url` inside the worker, which then sends the same form of
terminal error DM. -/
theorem dispatchValidation (selfId : String)
    (lookup : String → Option String × Option String)
    (sid b64 svcOpt : String) :
    (pyStrip sid = "" →
        handleDm selfId lookup (InMsg.asrAudio sid b64 svcOpt) =
          ([errDM "ValueError: asr.audio missing sid"], []) ∧
        handleDm selfId lookup (InMsg.asrEnd sid svcOpt) =
          ([errDM "ValueError: asr.end missing sid"], []) ∧
        handleDm selfId lookup (InMsg.asrEvents sid svcOpt) =
          ([errDM "ValueError: asr.events missing sid"], [])) ∧
    (pyStrip sid ≠ "" → b64 = "" →
        handleDm selfId lookup (InMsg.asrAudio sid b64 svcOpt) =
          ([errDM "ValueError: asr.audio missing body_b64"], [])) ∧
    (∀ maxBody cfg hb targets attempts e (req : Req),
        resolveUrl targets req = .error e →
        workerRun maxBody cfg hb targets attempts req = [errDM e]) := by
  refine ⟨?_, ?_, ?_⟩
  · intro h
    refine ⟨?_, ?_, ?_⟩ <;>
      simp [handleDm, reqFromAsrAudio, reqFromAsrEnd, reqFromAsrEvents, h]
  · intro h hb
    simp [handleDm, reqFromAsrAudio, h, hb]
  · intro maxBody cfg hb targets attempts e req hres
    simp [workerRun, hres]

theorem dispatchValidation_witness :
    handleDm "relay-A" (fun _ => (none, none)) (InMsg.asrAudio " " "zz" "") =
      ([errDM "ValueError: asr.audio missing sid"], []) :=
  ((dispatchValidation "relay-A" (fun _ => (none, none)) " " "zz" "").1
    (by decide)).1

theorem processNonStream_fields (maxBody : Nat) (resp : Resp) :
    respOkOf (processNonStream maxBody resp) = some true ∧
    respStatusOf (processNonStream maxBody resp) = some resp.status ∧
    respTruncOf (processNonStream maxBody resp) =
      some (decide (resp.body.length > maxBody)) ∧
    (respBodyOf (processNonStream maxBody resp) = some none ∨
     respBodyOf (processNonStream maxBody resp) =
       some (some (resp.body.take maxBody))) := by
  have hraw : (if resp.body.length > maxBody then resp.body.take maxBody
      else resp.body) = resp.body.take maxBody := by
    split
    · rfl
    · rename_i hle
      rw [List.take_of_length_le (by omega)]
  simp only [processNonStream]
  split
  · cases hj : resp.jsonVal with
    | some j => simp [respOkOf, respStatusOf, respTruncOf, respBodyOf]
    | none => simp [respOkOf, respStatusOf, respTruncOf, respBodyOf, hraw]
  · simp [respOkOf, respStatusOf, respTruncOf, respBodyOf, hraw]

/-- C10: for a non-streaming request whose upstream exchange completes with
any status code, the terminal `relay.response` has `ok=true` and carries that
status; every `ok=false` terminal response this job can produce (URL
validation failure or final transport failure) carries `status=0`. -/
theorem workerRun_status_policy (maxBody : Nat) (cfg : LinesCfg)
    (hb : Nat → Bool) (targets : List (String × String))
    (attempts : Nat → Except String Resp) (req : Req) (url : String)
    (hres : resolveUrl targets req = .ok url)
    (hns : wantStream req = false) :
    (∀ resp, (httpRetry attempts).1 = .ok resp →
        workerRun maxBody cfg hb targets attempts req =
          [processNonStream maxBody resp] ∧
        respOkOf (processNonStream maxBody resp) = some true ∧
        respStatusOf (processNonStream maxBody resp) = some resp.status) ∧
    (∀ m ∈ workerRun maxBody cfg hb targets attempts req,
        respOkOf m = some false → respStatusOf m = some 0) := by
  constructor
  · intro resp hok
    refine ⟨?_, (processNonStream_fields maxBody resp).1,
      (processNonStream_fields maxBody resp).2.1⟩
    simp [workerRun, hres, hok, hns]
  · intro m hm hfalse
    revert hm
    unfold workerRun
    rw [hres]
    cases hret : (httpRetry attempts).1 with
    | error e =>
        intro hm
        simp only [List.mem_singleton] at hm
        subst hm
        rfl
    | ok resp =>
        rw [hns]
        intro hm
        simp only [Bool.false_eq_true, if_false, List.mem_singleton] at hm
        subst hm
        rw [(processNonStream_fields maxBody resp).1] at hfalse
        cases hfalse

theorem workerRun_status_policy_witness :
    workerRun 4 cfg0 (fun _ => false) targets0
        (fun _ => Except.ok
          { status := 503, contentType := "text/plain", jsonVal := none,
            body := [104, 105], textChunks := [], byteChunks := [],
            streamErr := none })
        { url := "http://127.0.0.1:9999/x", service := "", target := "",
          path := "", stream := "", xRelayStream := "" } =
      [DMsg.response true 503 none (some [104, 105]) false none] := by
  have h := (workerRun_status_policy 4 cfg0 (fun _ => false) targets0
    (fun _ => Except.ok
      { status := 503, contentType := "text/plain", jsonVal := none,
        body := [104, 105], textChunks := [], byteChunks := [],
        streamErr := none })
    { url := "http://127.0.0.1:9999/x", service := "", target := "",
      path := "", stream := "", xRelayStream := "" }
    "http://127.0.0.1:9999/x" rfl rfl).1 _ rfl
  rw [h.1]
  rfl

/-- C5 counterexample: with `max_body_b = 4`, a chunk-mode stream whose
upstream body is the 5 bytes `[0,1,2,3,4]` delivers the full 5-byte frame
uncut and its `relay.response.end` reports `truncated = false`, although the
body exceeded the limit — `_stream_chunks` hard-codes `truncated: False` and
never cuts the body. -/
theorem streamChunks_never_truncates :
    streamChunksRun (fun _ => false) [[0, 1, 2, 3, 4]] none =
      [DMsg.chunkM 1 [0, 1, 2, 3, 4],
       DMsg.endM true 5 1 none none (some false) none] ∧
    4 < 5 := by
  exact ⟨rfl, by omega⟩

/-- C5 (amended): only non-streaming responses are subject to the body cap:
`_process_request` reports `truncated=true` iff the raw body exceeded
`max_body_b` and any delivered base64 body is the body cut to `max_body_b`
bytes (the parsed-JSON delivery is not cut); streaming responses are never
truncated — every chunk-mode `relay.response.end` carries `truncated=false`
and line-mode end DMs carry no `truncated` field at all. -/
theorem truncation_policy (maxBody : Nat) (resp : Resp) (hb : Nat → Bool)
    (cfg : LinesCfg) (bchunks : List (List Nat)) (tchunks : List (List Char))
    (err : Option String) :
    respTruncOf (processNonStream maxBody resp) =
      some (decide (resp.body.length > maxBody)) ∧
    (respBodyOf (processNonStream maxBody resp) = some none ∨
     respBodyOf (processNonStream maxBody resp) =
       some (some (resp.body.take maxBody))) ∧
    ((streamChunksRun hb bchunks err).getLast?.bind endTruncOf =
       some (some false)) ∧
    ((streamLinesRun cfg tchunks err).getLast?.bind endTruncOf =
       some none) := by
  refine ⟨(processNonStream_fields maxBody resp).2.2.1,
    (processNonStream_fields maxBody resp).2.2.2, ?_, ?_⟩
  · unfold streamChunksRun
    cases err with
    | some e => rw [List.getLast?_concat]; rfl
    | none => rw [List.getLast?_concat]; rfl
  · unfold streamLinesRun
    cases err with
    | some e => dsimp only; rw [List.getLast?_concat]; rfl
    | none => dsimp only; rw [List.getLast?_concat]; rfl

theorem range'_take (n : Nat) :
    ∀ s m, (List.range' s n).take m = List.range' s (min m n) := by
  induction n with
  | zero => intro s m; simp
  | succ k ih =>
      intro s m
      cases m with
      | zero => simp
      | succ j =>
          rw [show List.range' s (k + 1) = s :: List.range' (s + 1) k from rfl]
          simp only [List.take_succ_cons, ih]
          rw [show min (j + 1) (k + 1) = min j k + 1 by omega,
            show List.range' s (min j k + 1) =
              s :: List.range' (s + 1) (min j k) from rfl]

theorem flushBatch_spec (st : LSt) :
    entriesOf (flushBatch st).1 = st.batch ∧
    (flushBatch st).2.batch = [] ∧
    (flushBatch st).2.seq = st.seq ∧
    (∀ m ∈ (flushBatch st).1, linesKeep m = true) := by
  unfold flushBatch
  split
  · rename_i h
    exact ⟨h.symm, h, rfl, by simp [entriesOf]⟩
  · refine ⟨?_, rfl, rfl, ?_⟩
    · simp [entriesOf, frameEntries]
    · intro m hm
      simp only [List.mem_singleton] at hm
      subst hm
      rfl

theorem pushLine_spec (cfg : LinesCfg) (st : LSt) (line : List Char) :
    entriesOf (pushLine cfg st line).1 ++ (pushLine cfg st line).2.batch =
      st.batch ++ [(st.seq + 1, line)] ∧
    (pushLine cfg st line).2.seq = st.seq + 1 ∧
    (pushLine cfg st line).2.buf = st.buf ∧
    (∀ m ∈ (pushLine cfg st line).1, linesKeep m = true) := by
  unfold pushLine
  dsimp only
  split
  · refine ⟨?_, ?_, ?_, ?_⟩ <;>
      simp [flushBatch, entriesOf, frameEntries, linesKeep]
  · split
    · refine ⟨?_, ?_, ?_, ?_⟩ <;>
        simp [flushBatch, entriesOf, frameEntries, linesKeep]
    · refine ⟨?_, ?_, ?_, ?_⟩ <;>
        simp [entriesOf, frameEntries, linesKeep]

theorem feedChars_inv (cfg : LinesCfg) (cs : List Char) :
    ∀ st : LSt,
      entriesOf (feedChars cfg st cs).1 ++ (feedChars cfg st cs).2.batch =
        st.batch ++
          tagFrom st.seq ((segsAcc st.buf cs).filter (fun l => !lineBlank l)) ∧
      (feedChars cfg st cs).2.seq =
        st.seq + ((segsAcc st.buf cs).filter (fun l => !lineBlank l)).length ∧
      (feedChars cfg st cs).2.buf = restAcc st.buf cs ∧
      (∀ m ∈ (feedChars cfg st cs).1, linesKeep m = true) := by
  induction cs with
  | nil =>
      intro st
      simp [feedChars, entriesOf, segsAcc, restAcc, tagFrom]
  | cons c rest ih =>
      intro st
      by_cases hc : c = '\n'
      · subst hc
        by_cases hbl : lineBlank st.buf = true
        · have hstep : feedChars cfg st ('\n' :: rest) =
              feedChars cfg { st with buf := ([] : List Char) } rest := by
            simp [feedChars, feedChar, hbl]
          have h := ih { st with buf := ([] : List Char) }
          dsimp only at h
          rw [hstep]
          simpa [segsAcc, restAcc, hbl] using h
        · rw [Bool.not_eq_true] at hbl
          have hstep : feedChars cfg st ('\n' :: rest) =
              ((pushLine cfg { st with buf := ([] : List Char) } st.buf).1 ++
                 (feedChars cfg
                   (pushLine cfg { st with buf := ([] : List Char) } st.buf).2
                   rest).1,
               (feedChars cfg
                 (pushLine cfg { st with buf := ([] : List Char) } st.buf).2
                 rest).2) := by
            simp [feedChars, feedChar, hbl]
          have hp := pushLine_spec cfg { st with buf := ([] : List Char) } st.buf
          have h2 := ih (pushLine cfg { st with buf := ([] : List Char) } st.buf).2
          dsimp only at hp
          rw [hp.2.2.1, hp.2.1] at h2
          rw [hstep]
          have hseg : segsAcc st.buf ('\n' :: rest) = st.buf :: segsAcc [] rest := by
            simp [segsAcc]
          have hrest2 : restAcc st.buf ('\n' :: rest) = restAcc [] rest := by
            simp [restAcc]
          rw [hseg, hrest2]
          have hfil : (st.buf :: segsAcc [] rest).filter (fun l => !lineBlank l) =
              st.buf :: (segsAcc [] rest).filter (fun l => !lineBlank l) := by
            simp [List.filter_cons, hbl]
          rw [hfil]
          refine ⟨?_, ?_, ?_, ?_⟩
          · rw [show tagFrom st.seq
                (st.buf :: (segsAcc [] rest).filter (fun l => !lineBlank l)) =
                (st.seq + 1, st.buf) ::
                  tagFrom (st.seq + 1)
                    ((segsAcc [] rest).filter (fun l => !lineBlank l)) from rfl]
            rw [entriesOf_append, List.append_assoc, h2.1,
              ← List.append_assoc, hp.1, List.append_assoc,
              List.singleton_append]
          · rw [h2.2.1]
            simp only [List.length_cons]
            omega
          · exact h2.2.2.1
          · intro m hm
            rw [List.mem_append] at hm
            cases hm with
            | inl hm => exact hp.2.2.2 m hm
            | inr hm => exact h2.2.2.2 m hm
      · have hstep : feedChars cfg st (c :: rest) =
            feedChars cfg { st with buf := st.buf ++ [c] } rest := by
          simp [feedChars, feedChar, hc]
        have h := ih { st with buf := st.buf ++ [c] }
        dsimp only at h
        rw [hstep]
        simpa [segsAcc, restAcc, hc] using h

theorem feedChunk_inv (cfg : LinesCfg) (st : LSt) (ch : List Char) :
    entriesOf (feedChunk cfg st ch).1 ++ (feedChunk cfg st ch).2.batch =
      st.batch ++
        tagFrom st.seq ((segsAcc st.buf ch).filter (fun l => !lineBlank l)) ∧
    (feedChunk cfg st ch).2.seq =
      st.seq + ((segsAcc st.buf ch).filter (fun l => !lineBlank l)).length ∧
    (feedChunk cfg st ch).2.buf = restAcc st.buf ch ∧
    (∀ m ∈ (feedChunk cfg st ch).1, linesKeep m = true) := by
  by_cases hch : ch = []
  · subst hch
    have hstep : feedChunk cfg st [] =
        (if cfg.heartbeatDue st.tick = true then
           ([DMsg.keepalive], { st with tick := st.tick + 1 })
         else ([], { st with tick := st.tick + 1 })) := by
      simp [feedChunk]
    rw [hstep]
    split <;>
      simp [entriesOf, frameEntries, linesKeep, segsAcc, restAcc, tagFrom]
  · have h := feedChars_inv cfg ch { st with nbytes := st.nbytes + ch.length }
    dsimp only at h
    set f := feedChars cfg { st with nbytes := st.nbytes + ch.length } ch with hf
    have hstep : feedChunk cfg st ch =
        (if cfg.heartbeatDue f.2.tick = true then
           (f.1 ++ [DMsg.keepalive], { f.2 with tick := f.2.tick + 1 })
         else (f.1, { f.2 with tick := f.2.tick + 1 })) := by
      rw [feedChunk, if_neg hch, ← hf]
    rw [hstep]
    split
    · refine ⟨?_, ?_, ?_, ?_⟩
      · dsimp only
        rw [entriesOf_append]
        simpa [entriesOf, frameEntries] using h.1
      · exact h.2.1
      · exact h.2.2.1
      · intro m hm
        dsimp only at hm
        rw [List.mem_append] at hm
        rcases hm with hm | hm
        · exact h.2.2.2 m hm
        · simp only [List.mem_singleton] at hm
          subst hm
          rfl
    · exact h

theorem feedAll_inv (cfg : LinesCfg) (chunks : List (List Char)) :
    ∀ st : LSt,
      entriesOf (feedAll cfg st chunks).1 ++ (feedAll cfg st chunks).2.batch =
        st.batch ++
          tagFrom st.seq
            ((segsAcc st.buf chunks.flatten).filter (fun l => !lineBlank l)) ∧
      (feedAll cfg st chunks).2.seq =
        st.seq +
          ((segsAcc st.buf chunks.flatten).filter (fun l => !lineBlank l)).length ∧
      (feedAll cfg st chunks).2.buf = restAcc st.buf chunks.flatten ∧
      (∀ m ∈ (feedAll cfg st chunks).1, linesKeep m = true) := by
  induction chunks with
  | nil =>
      intro st
      simp [feedAll, entriesOf, segsAcc, restAcc, tagFrom]
  | cons ch rest ih =>
      intro st
      have h1 := feedChunk_inv cfg st ch
      have h2 := ih (feedChunk cfg st ch).2
      have hstep : feedAll cfg st (ch :: rest) =
          ((feedChunk cfg st ch).1 ++
             (feedAll cfg (feedChunk cfg st ch).2 rest).1,
           (feedAll cfg (feedChunk cfg st ch).2 rest).2) := rfl
      rw [hstep]
      have hflat : (ch :: rest).flatten = ch ++ rest.flatten := rfl
      rw [hflat, segsAcc_append, restAcc_append, List.filter_append,
        tagFrom_append]
      rw [h1.2.2.1, h1.2.1] at h2
      refine ⟨?_, ?_, ?_, ?_⟩
      · rw [entriesOf_append, List.append_assoc, h2.1,
          ← List.append_assoc, h1.1, List.append_assoc]
      · rw [h2.2.1, List.length_append]
        omega
      · exact h2.2.2.1
      · intro m hm
        rw [List.mem_append] at hm
        cases hm with
        | inl hm => exact h1.2.2.2 m hm
        | inr hm => exact h2.2.2.2 m hm

theorem midFrame_of_linesKeep {m : DMsg} (h : linesKeep m = true) :
    midFrame m = true := by
  cases m <;> simp [linesKeep, midFrame] at h ⊢

theorem seqsOf_of_linesKeep (l : List DMsg)
    (h : ∀ m ∈ l, linesKeep m = true) :
    seqsOf l = (entriesOf l).map Prod.fst := by
  induction l with
  | nil => rfl
  | cons m rest ih =>
      have hm := h m (List.mem_cons_self m rest)
      have hr := ih (fun x hx => h x (List.mem_cons_of_mem m hx))
      cases m <;> simp [linesKeep] at hm <;>
        simp [seqsOf, entriesOf, frameSeqs, frameEntries, hr]

theorem chunkFold_inv (hb : Nat → Bool) (chunks : List (List Nat)) :
    ∀ st : CSt, ∃ k,
      (chunkFold hb st chunks).2.seq = st.seq + k ∧
      seqsOf (chunkFold hb st chunks).1 = List.range' (st.seq + 1) k ∧
      (∀ m ∈ (chunkFold hb st chunks).1, midFrame m = true) := by
  induction chunks with
  | nil =>
      intro st
      exact ⟨0, rfl, rfl, by simp [chunkFold, seqsOf]⟩
  | cons ch rest ih =>
      intro st
      by_cases hch : ch = []
      · subst hch
        have hstep : chunkFold hb st ([] :: rest) =
            ((chunkStep hb st []).1 ++
               (chunkFold hb (chunkStep hb st []).2 rest).1,
             (chunkFold hb (chunkStep hb st []).2 rest).2) := rfl
        have hcs : chunkStep hb st [] =
            (if hb st.tick = true then
               ([DMsg.keepalive], { st with tick := st.tick + 1 })
             else ([], { st with tick := st.tick + 1 })) := by
          simp [chunkStep]
        rw [hstep, hcs]
        split
        · obtain ⟨k, h1, h2, h3⟩ := ih { st with tick := st.tick + 1 }
          refine ⟨k, h1, ?_, ?_⟩
          · dsimp only
            rw [seqsOf_append, h2]
            rfl
          · intro m hm
            dsimp only at hm
            rw [List.mem_append] at hm
            rcases hm with hm | hm
            · simp only [List.mem_singleton] at hm
              subst hm
              rfl
            · exact h3 m hm
        · obtain ⟨k, h1, h2, h3⟩ := ih { st with tick := st.tick + 1 }
          exact ⟨k, h1, by dsimp only; rw [seqsOf_append, h2]; rfl, by
            intro m hm
            dsimp only at hm
            rw [List.mem_append] at hm
            rcases hm with hm | hm
            · cases hm
            · exact h3 m hm⟩
      · have hstep : chunkFold hb st (ch :: rest) =
            ((chunkStep hb st ch).1 ++
               (chunkFold hb (chunkStep hb st ch).2 rest).1,
             (chunkFold hb (chunkStep hb st ch).2 rest).2) := rfl
        have hcs : chunkStep hb st ch =
            ([DMsg.chunkM (st.seq + 1) ch],
             { st with seq := st.seq + 1, total := st.total + ch.length }) := by
          simp [chunkStep, hch]
        rw [hstep, hcs]
        obtain ⟨k, h1, h2, h3⟩ :=
          ih { st with seq := st.seq + 1, total := st.total + ch.length }
        dsimp only at h1 h2
        refine ⟨k + 1, ?_, ?_, ?_⟩
        · dsimp only
          rw [h1]
          omega
        · dsimp only
          rw [seqsOf_append, h2]
          rw [show List.range' (st.seq + 1) (k + 1) =
            (st.seq + 1) :: List.range' (st.seq + 1 + 1) k from rfl]
          rfl
        · intro m hm
          dsimp only at hm
          rw [List.mem_append] at hm
          rcases hm with hm | hm
          · simp only [List.mem_singleton] at hm
            subst hm
            rfl
          · exact h3 m hm

/-- C3 counterexample: with the body `a\nb` (no trailing newline), the line
stream emits only the line `a` — the final unterminated segment `b` is
dropped, because at EOF `_stream_lines` flushes only the incremental
decoder's tail and never the `text_buf` remainder — while the claim's
non-blank newline-separated segments of the body are `a` and `b`. -/
theorem streamLines_drops_final_segment :
    lineFieldsOf (handleStreamLines cfg0 200 [['a', '\n', 'b']] none) =
      [['a']] ∧
    specNonBlankSegs (List.flatten [['a', '\n', 'b']]) = [['a'], ['b']] ∧
    ([['a']] : List (List Char)) ≠ [['a'], ['b']] := by
  refine ⟨rfl, rfl, by decide⟩

/-- C3 (amended): for every line-mode stream that reaches EOF, the emitted
`(seq, line)` entries are exactly the non-blank `\n`-terminated segments of
the decoded upstream body, tagged `1..n` in order; in particular the
concatenated `line` fields reproduce the body's non-blank newline-terminated
lines, but a final segment not terminated by `\n` is dropped, not emitted. -/
theorem streamLines_content (cfg : LinesCfg) (status : Nat)
    (chunks : List (List Char)) :
    entriesOf (handleStreamLines cfg status chunks none) =
      tagFrom 0 ((segsAcc [] chunks.flatten).filter (fun l => !lineBlank l)) ∧
    lineFieldsOf (handleStreamLines cfg status chunks none) =
      (segsAcc [] chunks.flatten).filter (fun l => !lineBlank l) := by
  have h := feedAll_inv cfg chunks lstInit
  simp only [lstInit] at h
  have hfb := flushBatch_spec (feedAll cfg lstInit chunks).2
  have hout : handleStreamLines cfg status chunks none =
      DMsg.beginM status ::
        ((feedAll cfg lstInit chunks).1 ++
           (flushBatch (feedAll cfg lstInit chunks).2).1 ++
           [DMsg.endM true (flushBatch (feedAll cfg lstInit chunks).2).2.nbytes
              (flushBatch (feedAll cfg lstInit chunks).2).2.seq
              (some (flushBatch (feedAll cfg lstInit chunks).2).2.nlines)
              (some (flushBatch (feedAll cfg lstInit chunks).2).2.dseen)
              none none]) := rfl
  have hentries :
      entriesOf (handleStreamLines cfg status chunks none) =
        tagFrom 0 ((segsAcc [] chunks.flatten).filter (fun l => !lineBlank l)) := by
    rw [hout]
    show entriesOf ((feedAll cfg lstInit chunks).1 ++
        (flushBatch (feedAll cfg lstInit chunks).2).1 ++ [_]) = _
    rw [entriesOf_append, entriesOf_append, hfb.1]
    have hend : entriesOf [DMsg.endM true
        (flushBatch (feedAll cfg lstInit chunks).2).2.nbytes
        (flushBatch (feedAll cfg lstInit chunks).2).2.seq
        (some (flushBatch (feedAll cfg lstInit chunks).2).2.nlines)
        (some (flushBatch (feedAll cfg lstInit chunks).2).2.dseen)
        none none] = [] := rfl
    rw [hend, List.append_nil]
    have := h.1
    simpa using this
  refine ⟨hentries, ?_⟩
  rw [lineFieldsOf, hentries, tagFrom_map_snd]

/-- C1: every streaming request, in line mode and in chunk mode alike and
under every timing of flushes and heartbeats, emits exactly one
`relay.response.begin` first, then only frames and keepalives whose frame
`seq` values are `1, 2, 3, …` (strictly increasing from 1), then exactly one
`relay.response.end` — `ok=true` at EOF, `ok=false` on a mid-stream
exception — and nothing after the end. -/
theorem streamDMSequence (cfg : LinesCfg) (hb : Nat → Bool) (status : Nat)
    (tchunks : List (List Char)) (bchunks : List (List Nat))
    (err : Option String) :
    (∃ mid last,
        handleStreamLines cfg status tchunks err =
          DMsg.beginM status :: (mid ++ [last]) ∧
        (∀ m ∈ mid, midFrame m = true) ∧
        isEndM last = true ∧
        endOkOf last = some err.isNone ∧
        seqsOf mid = List.range' 1 (seqsOf mid).length) ∧
    (∃ mid last,
        handleStreamChunks hb status bchunks err =
          DMsg.beginM status :: (mid ++ [last]) ∧
        (∀ m ∈ mid, midFrame m = true) ∧
        isEndM last = true ∧
        endOkOf last = some err.isNone ∧
        seqsOf mid = List.range' 1 (seqsOf mid).length) := by
  constructor
  · have h := feedAll_inv cfg tchunks lstInit
    rw [show lstInit.batch = [] from rfl, show lstInit.seq = 0 from rfl,
      show lstInit.buf = [] from rfl] at h
    cases err with
    | none =>
        have hfb := flushBatch_spec (feedAll cfg lstInit tchunks).2
        refine ⟨(feedAll cfg lstInit tchunks).1 ++
            (flushBatch (feedAll cfg lstInit tchunks).2).1,
          DMsg.endM true (flushBatch (feedAll cfg lstInit tchunks).2).2.nbytes
            (flushBatch (feedAll cfg lstInit tchunks).2).2.seq
            (some (flushBatch (feedAll cfg lstInit tchunks).2).2.nlines)
            (some (flushBatch (feedAll cfg lstInit tchunks).2).2.dseen)
            none none, ?_, ?_, rfl, rfl, ?_⟩
        · show DMsg.beginM status ::
            ((feedAll cfg lstInit tchunks).1 ++
               (flushBatch (feedAll cfg lstInit tchunks).2).1 ++ [_]) = _
          rw [List.append_assoc]
        · intro m hm
          rw [List.mem_append] at hm
          rcases hm with hm | hm
          · exact midFrame_of_linesKeep (h.2.2.2 m hm)
          · exact midFrame_of_linesKeep (hfb.2.2.2 m hm)
        · have hlk : ∀ m ∈ (feedAll cfg lstInit tchunks).1 ++
              (flushBatch (feedAll cfg lstInit tchunks).2).1,
              linesKeep m = true := by
            intro m hm
            rw [List.mem_append] at hm
            rcases hm with hm | hm
            · exact h.2.2.2 m hm
            · exact hfb.2.2.2 m hm
          rw [seqsOf_of_linesKeep _ hlk, entriesOf_append, hfb.1]
          have h1 := h.1
          simp only [List.nil_append] at h1
          rw [h1, tagFrom_map_fst, List.length_range']
    | some e =>
        refine ⟨(feedAll cfg lstInit tchunks).1,
          DMsg.endM false (feedAll cfg lstInit tchunks).2.nbytes
            (feedAll cfg lstInit tchunks).2.seq
            (some (feedAll cfg lstInit tchunks).2.nlines)
            (some (feedAll cfg lstInit tchunks).2.dseen)
            none (some e), rfl, ?_, rfl, rfl, ?_⟩
        · intro m hm
          exact midFrame_of_linesKeep (h.2.2.2 m hm)
        · have h1 := h.1
          simp only [List.nil_append] at h1
          have hpre : entriesOf (feedAll cfg lstInit tchunks).1 =
              (tagFrom 0 ((segsAcc [] tchunks.flatten).filter
                (fun l => !lineBlank l))).take
                (entriesOf (feedAll cfg lstInit tchunks).1).length := by
            rw [← h1, List.take_left]
          rw [seqsOf_of_linesKeep _ h.2.2.2, hpre, List.map_take,
            tagFrom_map_fst, range'_take, List.length_range']
  · obtain ⟨k, h1, h2, h3⟩ := chunkFold_inv hb bchunks { seq := 0, total := 0, tick := 0 }
    cases err with
    | none =>
        refine ⟨(chunkFold hb { seq := 0, total := 0, tick := 0 } bchunks).1,
          DMsg.endM true
            (chunkFold hb { seq := 0, total := 0, tick := 0 } bchunks).2.total
            (chunkFold hb { seq := 0, total := 0, tick := 0 } bchunks).2.seq
            none none (some false) none, rfl, h3, rfl, rfl, ?_⟩
        rw [h2, List.length_range']
    | some e =>
        refine ⟨(chunkFold hb { seq := 0, total := 0, tick := 0 } bchunks).1,
          DMsg.endM false
            (chunkFold hb { seq := 0, total := 0, tick := 0 } bchunks).2.total
            (chunkFold hb { seq := 0, total := 0, tick := 0 } bchunks).2.seq
            none none (some false) (some e), rfl, h3, rfl, rfl, ?_⟩
        rw [h2, List.length_range']

theorem idxOf_lt_length {ns : List String} {c : String} (h : c ∈ ns) :
    idxOf ns c < ns.length := by
  induction ns with
  | nil => cases h
  | cons x rest ih =>
      by_cases hx : x = c
      · simp [idxOf, hx]
      · rw [List.mem_cons] at h
        rcases h with h | h
        · exact absurd h.symm hx
        · simp only [idxOf, if_neg hx, List.length_cons]
          have := ih h
          omega

theorem getD_idxOf {ns : List String} {c : String} (h : c ∈ ns) (d : String) :
    ns.getD (idxOf ns c) d = c := by
  induction ns with
  | nil => cases h
  | cons x rest ih =>
      by_cases hx : x = c
      · simp [idxOf, hx]
      · rw [List.mem_cons] at h
        rcases h with h | h
        · exact absurd h.symm hx
        · simp only [idxOf, if_neg hx, List.getD_cons_succ]
          exact ih h

theorem getD_mem {ns : List String} : ∀ {j : Nat}, j < ns.length →
    ∀ d, ns.getD j d ∈ ns := by
  induction ns with
  | nil => intro j hj _; simp at hj
  | cons x rest ih =>
      intro j hj d
      cases j with
      | zero => simp [List.getD_cons_zero]
      | succ k =>
          simp only [List.getD_cons_succ]
          refine List.mem_cons_of_mem x (ih ?_ d)
          simp only [List.length_cons] at hj
          omega

theorem idxOf_getD {ns : List String} (hnd : ns.Nodup) :
    ∀ {j : Nat}, j < ns.length → ∀ d, idxOf ns (ns.getD j d) = j := by
  induction ns with
  | nil => intro j hj _; simp at hj
  | cons x rest ih =>
      intro j hj d
      cases j with
      | zero => simp [List.getD_cons_zero, idxOf]
      | succ k =>
          have hk : k < rest.length := by
            simp only [List.length_cons] at hj
            omega
          have hmem : rest.getD k d ∈ rest := getD_mem hk d
          have hx : x ≠ rest.getD k d := by
            intro hEq
            rw [List.nodup_cons] at hnd
            exact hnd.1 (hEq ▸ hmem)
          simp only [List.getD_cons_succ, idxOf, if_neg hx]
          rw [ih (List.nodup_cons.mp hnd).2 hk]

theorem lookupA_setA_self (l : List (String × String)) (k v : String) :
    lookupA (setA l k v) k = some v := by
  induction l with
  | nil => simp [setA, lookupA]
  | cons p rest ih =>
      obtain ⟨k', v'⟩ := p
      by_cases hp : k' = k
      · simp [setA, hp, lookupA]
      · simp [setA, hp, lookupA, ih]

theorem cycleService_step (known : List String) (st : RouterSt) (s c : String)
    (hs : s ≠ "") (hk : s ∈ known)
    (hc : lookupA st.assignments s = some c) (hmem : c ∈ st.nodeIds) :
    (cycleService known st s).nodeIds = st.nodeIds ∧
    lookupA (cycleService known st s).assignments s =
      some (st.nodeIds.getD
        ((idxOf st.nodeIds c + 1) % st.nodeIds.length) "") := by
  have hne : st.nodeIds ≠ [] := List.ne_nil_of_mem hmem
  unfold cycleService
  rw [if_neg (by push_neg; exact ⟨hs, hk⟩), if_neg hne]
  dsimp only
  rw [hc]
  dsimp only
  rw [if_pos hmem]
  split
  · rename_i heq
    exact ⟨rfl, by rw [hc]; exact heq⟩
  · exact ⟨rfl, lookupA_setA_self _ _ _⟩

/-- C9 counterexample: with a single configured node, `_cycle_service` is a
no-op (`new_id == current` short-circuits), so rotating twice returns the
assignment to its original identity although the number of nodes is 1, not
2 — refuting the claimed iff. -/
theorem cycleService_singleton_rotation :
    cycleService ["whisper_asr"]
        (cycleService ["whisper_asr"]
          { nodeIds := ["relay-A"],
            assignments := [("whisper_asr", "relay-A")] } "whisper_asr")
        "whisper_asr" =
      { nodeIds := ["relay-A"],
        assignments := [("whisper_asr", "relay-A")] } ∧
    ({ nodeIds := ["relay-A"],
       assignments := [("whisper_asr", "relay-A")] } : RouterSt).nodeIds.length
      ≠ 2 := by
  exact ⟨rfl, by decide⟩

/-- C9 (amended): for every duplicate-free configured node list and every
service known to the status map whose current assignment is one of the
configured nodes, applying the assignment rotation twice returns the
service to its original identity iff the number of nodes is 1 or 2 (with a
single node every rotation is a no-op; with two nodes the two rotations
complete the cycle). -/
theorem cycleService_twice (known : List String) (st : RouterSt)
    (s c : String) (hs : s ≠ "") (hk : s ∈ known) (hnd : st.nodeIds.Nodup)
    (hc : lookupA st.assignments s = some c) (hmem : c ∈ st.nodeIds) :
    lookupA
        (cycleService known (cycleService known st s) s).assignments s =
      some c ↔
    (st.nodeIds.length = 1 ∨ st.nodeIds.length = 2) := by
  have hnpos : 0 < st.nodeIds.length :=
    List.length_pos.mpr (List.ne_nil_of_mem hmem)
  have hi : idxOf st.nodeIds c < st.nodeIds.length := idxOf_lt_length hmem
  obtain ⟨hn1, hl1⟩ := cycleService_step known st s c hs hk hc hmem
  have hmod1 : (idxOf st.nodeIds c + 1) % st.nodeIds.length <
      st.nodeIds.length := Nat.mod_lt _ hnpos
  have hmem1 : st.nodeIds.getD
      ((idxOf st.nodeIds c + 1) % st.nodeIds.length) "" ∈ st.nodeIds :=
    getD_mem hmod1 ""
  obtain ⟨hn2, hl2⟩ := cycleService_step known (cycleService known st s) s
    (st.nodeIds.getD ((idxOf st.nodeIds c + 1) % st.nodeIds.length) "")
    hs hk hl1 (by rw [hn1]; exact hmem1)
  rw [hn1] at hl2
  rw [idxOf_getD hnd hmod1, Nat.mod_add_mod] at hl2
  rw [hl2]
  constructor
  · intro hfinal
    injection hfinal with hfe
    by_contra hcon
    push_neg at hcon
    obtain ⟨hne1, hne2⟩ := hcon
    have hmod2 : (idxOf st.nodeIds c + 1 + 1) % st.nodeIds.length <
        st.nodeIds.length := Nat.mod_lt _ hnpos
    have hix := idxOf_getD hnd hmod2 ""
    rw [hfe] at hix
    have hn3 : 3 ≤ st.nodeIds.length := by omega
    have hcases : idxOf st.nodeIds c + 1 + 1 < st.nodeIds.length ∨
        idxOf st.nodeIds c + 1 + 1 = st.nodeIds.length ∨
        idxOf st.nodeIds c + 1 + 1 = st.nodeIds.length + 1 := by omega
    rcases hcases with h | h | h
    · rw [Nat.mod_eq_of_lt h] at hix
      omega
    · rw [h, Nat.mod_self] at hix
      omega
    · rw [h, Nat.add_mod_left, Nat.mod_eq_of_lt (by omega)] at hix
      omega
  · intro hlen
    rcases hlen with h1 | h2
    · have hidx : (idxOf st.nodeIds c + 1 + 1) % st.nodeIds.length =
          idxOf st.nodeIds c := by
        rw [h1]
        omega
      rw [hidx, getD_idxOf hmem]
    · have hidx : (idxOf st.nodeIds c + 1 + 1) % st.nodeIds.length =
          idxOf st.nodeIds c := by
        rw [h2]
        omega
      rw [hidx, getD_idxOf hmem]

theorem cycleService_twice_witness :
    lookupA
        (cycleService ["whisper_asr"]
          (cycleService ["whisper_asr"]
            { nodeIds := ["relay-A", "relay-B"],
              assignments := [("whisper_asr", "relay-A")] } "whisper_asr")
          "whisper_asr").assignments "whisper_asr" =
      some "relay-A" :=
  (cycleService_twice ["whisper_asr"]
      { nodeIds := ["relay-A", "relay-B"],
        assignments := [("whisper_asr", "relay-A")] }
      "whisper_asr" "relay-A" (by decide) (by decide) (by decide) rfl
      (by decide)).mpr (Or.inr rfl)
